import Mathlib

/-!
Shallow embedding of `keras_export/visualize_layers.py` (frugally-deep).

The gradient-ascent driver (`process_conv_2d_layer`), the orchestrator
(`process_layers`) and the ASCII guard (`is_ascii`) are modelled over exact
rationals: the loop itself only adds tensors, compares the loss with 0 and
counts iterations, so the backend call
`iterate = K.function([input_img], [loss, grads])` (which already contains
the normalized gradient) is passed in as an oracle `List ℚ → ℚ × List ℚ`
from a flattened input tensor to the pair (loss value, gradient tensor).

The numeric post-processing (`normalize`, `deprocess_image`) uses square
roots, so it is modelled over the reals.
-/

namespace VisualizeLayers

/-- Fixed step size of the ascent loop: `step = 1.` in the source. -/
def STEP : ℚ := 1

/-- Fixed iteration count: `for i in range(20)` in the source. -/
def ITERATIONS : Nat := 20

/-- One update of the source line `input_img_data += grads_value * step`,
elementwise on the flattened tensor. -/
def stepUpdate (step : ℚ) (x g : List ℚ) : List ℚ :=
  List.zipWith (fun a b => a + b * step) x g

/-- Outcome of the inner ascent loop of `process_conv_2d_layer`:
the loss values evaluated by `iterate`, in order (so `losses.length` is the
number of loop iterations executed and `losses.getLast?` is the Python
variable `loss_value` after the loop), and the final `input_img_data`. -/
structure LoopResult where
  losses : List ℚ
  finalInput : List ℚ
  deriving DecidableEq, Repr

/-- Inner loop of `process_conv_2d_layer`:
`for i in range(fuel): loss_value, grads_value = iterate([input_img_data]);
input_img_data += grads_value * step; if loss_value <= 0.: break`.
The update is applied before the `loss_value <= 0` test, exactly as in the
source. -/
def runAscent (it : List ℚ → ℚ × List ℚ) (step : ℚ) : Nat → List ℚ → LoopResult
  | 0, x => ⟨[], x⟩
  | n + 1, x =>
    let p := it x
    let x2 := stepUpdate step x p.2
    if p.1 ≤ 0 then ⟨[p.1], x2⟩
    else
      let r := runAscent it step n x2
      ⟨p.1 :: r.losses, r.finalInput⟩

/-- The `loss_value` Python variable after the loop: the last evaluated loss. -/
def lastLoss (r : LoopResult) : Option ℚ := r.losses.getLast?

/-- Tail of `process_conv_2d_layer` for one filter: run the ascent loop from
the initial image and keep `(final input, loss_value)` when `loss_value > 0`
(`if loss_value > 0: kept_filters.append((img, loss_value))`; the image kept
by the source is `deprocess_image(input_img_data[0])`, modelled separately
over the reals, which does not affect emission, order or the stored loss). -/
def filterResult (it : List ℚ → ℚ × List ℚ) (x0 : List ℚ) :
    Option (List ℚ × ℚ) :=
  let r := runAscent it STEP ITERATIONS x0
  match lastLoss r with
  | none => none
  | some l => if 0 < l then some (r.finalInput, l) else none

/-- The `kept_filters` list of `process_conv_2d_layer`: filters are scanned
in order `filter_index in range(filter_cnt)`; `it i` is the compiled
loss/gradient function for filter `i` and `init i` the random initial image
drawn for filter `i`. -/
def processConv2DLayer (cnt : Nat) (it : Nat → List ℚ → ℚ × List ℚ)
    (init : Nat → List ℚ) : List (List ℚ × ℚ) :=
  (List.range cnt).filterMap fun i => filterResult (it i) (init i)

/-- Components of one output file name
`'{}/{}_{}_{}_{}.png'.format(out_dir, date_time_str, name, i, loss)`.
Directory and timestamp are opaque tokens; the layer name is its list of
character code points. -/
structure FileRecord where
  dir : Nat
  timestamp : Nat
  layerName : List Nat
  index : Nat
  loss : ℚ
  deriving DecidableEq, Repr

/-- The files written by `process_layers` for one convolution layer:
`for i, (image, loss) in enumerate(images_with_loss): imsave('{}/{}_{}_{}_{}.png'
.format(out_dir, date_time_str, name, i, loss), image)`.  `ts` gives the
timestamp taken at each write. -/
def outputRecords (dir : Nat) (ts : Nat → Nat) (name : List Nat)
    (kept : List (List ℚ × ℚ)) : List FileRecord :=
  kept.enum.map fun p => ⟨dir, ts p.1, name, p.1, p.2.2⟩

/-- The source `is_ascii`: `some_string.encode('ascii')` succeeds exactly
when every character's code point is below 128.  A string is modelled as its
list of code points. -/
def is_ascii (s : List Nat) : Bool := s.all fun c => c < 128

/-- Data of a `Conv2D` layer as the driver sees it: the filter count
(`layer.get_weights()[0].shape[-1]`), the per-filter compiled loss/gradient
function and the per-filter random initial image. -/
structure ConvData where
  filterCnt : Nat
  iter : Nat → List ℚ → ℚ × List ℚ
  init : Nat → List ℚ

/-- Layer kinds the orchestrator distinguishes: `Conv2D` (mapped to
`process_conv_2d_layer` in `process_layer_functions`) and every other leaf
layer type (no handler, skipped). -/
inductive LayerSpec where
  | conv2D (d : ConvData)
  | other

/-- A leaf layer of a flat model: its name (as character code points) and
its kind. -/
structure Layer where
  name : List Nat
  spec : LayerSpec

/-- Total number of gradient-ascent loop iterations executed when
`process_conv_2d_layer` handles a layer with data `d`. -/
def ascentIters (d : ConvData) : Nat :=
  ((List.range d.filterCnt).map fun i =>
    (runAscent (d.iter i) STEP ITERATIONS (d.init i)).losses.length).sum

/-- Ascent iterations performed while the orchestrator handles one layer:
only `Conv2D` layers are dispatched to the driver. -/
def layerWork (l : Layer) : Nat :=
  match l.spec with
  | .conv2D d => ascentIters d
  | .other => 0

/-- The layer loop of `process_layers` over a flat model, instrumented with
the number of ascent iterations performed: for each layer in order, the
source asserts `is_ascii(name)` (abort on failure) and then, when the layer
is a `Conv2D`, runs the driver.  Returns (ascent iterations performed before
termination, whether the run aborted on a non-ASCII name). -/
def processLayersRun : List Layer → Nat × Bool
  | [] => (0, false)
  | l :: rest =>
    if is_ascii l.name then
      let p := processLayersRun rest
      (layerWork l + p.1, p.2)
    else (0, true)

/-- The backend constant `K.epsilon()`, 1e-7. -/
noncomputable def epsK : ℝ := 1 / 10 ^ 7

/-- Mean of a flat list of scalars, `K.mean` / `np.mean` on the flattened
tensor (in Lean, division by a zero length yields 0). -/
noncomputable def meanR (l : List ℝ) : ℝ := l.sum / l.length

/-- Mean of the squared entries, `K.mean(K.square(x))`. -/
noncomputable def meanSq (l : List ℝ) : ℝ := meanR (l.map fun v => v ^ 2)

/-- The source `normalize` with the stability constant left as a parameter:
`x / (K.sqrt(K.mean(K.square(x))) + eps)`, elementwise on the flattened
tensor.  The source fixes `eps = K.epsilon()`; the parameter lets the
idealized exact-arithmetic variant `eps = 0` be stated as well. -/
noncomputable def normalizeEps (eps : ℝ) (t : List ℝ) : List ℝ :=
  t.map fun v => v / (Real.sqrt (meanSq t) + eps)

/-- The source `normalize`: `x / (K.sqrt(K.mean(K.square(x))) + K.epsilon())`. -/
noncomputable def normalize (t : List ℝ) : List ℝ := normalizeEps epsK t

/-- Multiplication of a tensor by a scalar, elementwise. -/
noncomputable def scale (k : ℝ) (t : List ℝ) : List ℝ := t.map fun v => k * v

/-- A rank-3 tensor in the channels-last layout `[height, width, channel]`,
as nested lists of scalars. -/
abbrev Tensor3 := List (List (List ℝ))

/-- Elementwise map over a rank-3 tensor (a numpy broadcasted scalar op). -/
def t3map (f : ℝ → ℝ) (x : Tensor3) : Tensor3 :=
  x.map fun p => p.map fun q => q.map f

/-- All scalar entries of a rank-3 tensor, flattened. -/
def t3elems (x : Tensor3) : List ℝ := x.flatten.flatten

/-- Global mean of a rank-3 tensor, `x.mean()`. -/
noncomputable def t3mean (x : Tensor3) : ℝ := meanR (t3elems x)

/-- Global standard deviation of a rank-3 tensor,
`x.std() = sqrt(mean((x - x.mean())**2))`. -/
noncomputable def t3std (x : Tensor3) : ℝ :=
  Real.sqrt (meanR ((t3elems x).map fun v => (v - t3mean x) ^ 2))

/-- The clamp `np.clip(v, lo, hi)` on one scalar. -/
noncomputable def clip (lo hi v : ℝ) : ℝ := min (max v lo) hi

/-- The source `deprocess_image` on a channels-last tensor (the
`channels_first` transpose branch is dead: `main` asserts
`K.image_data_format() == 'channels_last'`).  Steps in source order:
center on the mean, divide by `std + K.epsilon()`, scale by 0.1, shift by
0.5, clip to [0,1], scale by 255, clip to [0,255] and truncate to unsigned
bytes (`astype('uint8')`, truncation toward zero, here `Nat.floor` on the
already-nonnegative clipped value). -/
noncomputable def deprocess_image (x : Tensor3) : List (List (List ℕ)) :=
  let x1 := t3map (fun v => v - t3mean x) x
  let x2 := t3map (fun v => v / (t3std x1 + epsK)) x1
  let x3 := t3map (fun v => v * (1 / 10)) x2
  let x4 := t3map (fun v => v + 1 / 2) x3
  let x5 := t3map (clip 0 1) x4
  let x6 := t3map (fun v => v * 255) x5
  x6.map fun p => p.map fun q => q.map fun v => Nat.floor (clip 0 255 v)

/-- Values held by the caller's array after `deprocess_image(x)` returns:
the in-place operators `x -= x.mean()`, `x /= (x.std() + K.epsilon())`,
`x *= 0.1`, `x += 0.5` mutate the argument array, and the following
`x = np.clip(x, 0, 1)` rebinds the local name to a fresh array, leaving the
caller's array with the centered, rescaled, shifted values. -/
noncomputable def deprocessMutated (x : Tensor3) : Tensor3 :=
  let x1 := t3map (fun v => v - t3mean x) x
  let x2 := t3map (fun v => v / (t3std x1 + epsK)) x1
  let x3 := t3map (fun v => v * (1 / 10)) x2
  t3map (fun v => v + 1 / 2) x3

/-- Loss/gradient oracle used as a concrete test point: the loss is
constantly 0 and the gradient is constantly the one-element tensor `[1]`. -/
def zeroLossUnitGrad : List ℚ → ℚ × List ℚ := fun _ => (0, [1])

/-- Loss/gradient oracle used as a concrete test point: the loss is
constantly 1 and the gradient is the empty tensor. -/
def oneLossNoGrad : List ℚ → ℚ × List ℚ := fun _ => (1, [])

/-- Per-filter oracle for a two-filter layer test point: filter 0's loss is
constantly 0 (a dead filter), every other filter's loss is constantly 1. -/
def deadThenLive : Nat → List ℚ → ℚ × List ℚ :=
  fun i => if i = 0 then (fun _ => (0, [])) else (fun _ => (1, []))

/-- Per-filter initial image for test points: the empty tensor. -/
def emptyInit : Nat → List ℚ := fun _ => []

/-- A single-filter convolution layer test point with the ASCII name "c"
(code point 99) and a constant positive loss. -/
def convLayerC : Layer := ⟨[99], .conv2D ⟨1, fun _ => oneLossNoGrad, emptyInit⟩⟩

/-- A handler-less layer test point whose name is the single non-ASCII code
point 233. -/
def badNameLayer : Layer := ⟨[233], .other⟩

/-- Constant rank-3 tensor of shape H×W×C: every element equals `c`. -/
def constT3 (H W C : Nat) (c : ℝ) : Tensor3 :=
  List.replicate H (List.replicate W (List.replicate C c))

/-- Scalar pipeline of `deprocess_image` for a fixed input tensor `x`: the
per-element function the whole transformation applies once the global mean
and standard deviation of `x` are fixed. -/
noncomputable def depFun (x : Tensor3) (v : ℝ) : ℕ :=
  Nat.floor (clip 0 255
    (clip 0 1 ((v - t3mean x) /
      (t3std (t3map (fun w => w - t3mean x) x) + epsK) * (1 / 10) + 1 / 2) * 255))

/-- Scalar pipeline of the in-place prefix of `deprocess_image` (through
`x += 0.5`) for a fixed input tensor `x`. -/
noncomputable def mutFun (x : Tensor3) (v : ℝ) : ℝ :=
  (v - t3mean x) / (t3std (t3map (fun w => w - t3mean x) x) + epsK) *
    (1 / 10) + 1 / 2

/-- Input tensor of shape 1×1×2 with two distinct element values whose mean
is 1/2 and whose standard deviation is 0.1 - ε: the fixed point of the
in-place transformation of `deprocess_image`. -/
noncomputable def fixedPointT3 : Tensor3 :=
  [[[4000001 / 10 ^ 7, 5999999 / 10 ^ 7]]]

theorem runAscent_length_le (it : List ℚ → ℚ × List ℚ) (step : ℚ) :
    ∀ (n : Nat) (x : List ℚ), (runAscent it step n x).losses.length ≤ n := by
  intro n
  induction n with
  | zero => intro x; simp [runAscent]
  | succ m ih =>
    intro x
    by_cases h : (it x).1 ≤ 0
    · simp [runAscent, h]
    · simp only [runAscent, if_neg h, List.length_cons]
      exact Nat.succ_le_succ (ih _)

theorem runAscent_length_of_pos (it : List ℚ → ℚ × List ℚ) (step : ℚ) :
    ∀ (n : Nat) (x : List ℚ),
      (∀ l ∈ (runAscent it step n x).losses, 0 < l) →
      (runAscent it step n x).losses.length = n := by
  intro n
  induction n with
  | zero => intro x _; simp [runAscent]
  | succ m ih =>
    intro x hpos
    by_cases h : (it x).1 ≤ 0
    · exact absurd (hpos (it x).1 (by simp [runAscent, h])) (not_lt.mpr h)
    · simp only [runAscent, if_neg h, List.length_cons] at hpos ⊢
      have : ∀ l ∈ (runAscent it step m (stepUpdate step x (it x).2)).losses, 0 < l := by
        intro l hl
        exact hpos l (List.mem_cons_of_mem _ hl)
      rw [ih _ this]

theorem runAscent_nonpos_getLast (it : List ℚ → ℚ × List ℚ) (step : ℚ) :
    ∀ (n : Nat) (x : List ℚ),
      (∃ l ∈ (runAscent it step n x).losses, l ≤ 0) →
      ∃ l, (runAscent it step n x).losses.getLast? = some l ∧ l ≤ 0 := by
  intro n
  induction n with
  | zero => intro x h; simp [runAscent] at h
  | succ m ih =>
    intro x h
    by_cases hc : (it x).1 ≤ 0
    · exact ⟨(it x).1, by simp [runAscent, hc], hc⟩
    · simp only [runAscent, if_neg hc] at h ⊢
      obtain ⟨l, hl, hle⟩ := h
      rcases List.mem_cons.mp hl with rfl | hmem
      · exact absurd hle hc
      · obtain ⟨l2, hlast, hle2⟩ := ih _ ⟨l, hmem, hle⟩
        refine ⟨l2, ?_, hle2⟩
        rcases he : (runAscent it step m (stepUpdate step x (it x).2)).losses with _ | ⟨c, t⟩
        · rw [he] at hlast; simp at hlast
        · rw [he] at hlast
          rw [List.getLast?_cons_cons, hlast]

/-- C1: the driver emits a FilterResult exactly when the last evaluated loss
value (`loss_value` after the loop) is strictly positive, and any filter for
which some evaluated loss is ≤ 0 at any of the up-to-20 steps is discarded
and contributes no FilterResult. -/
theorem filterResult_iff_last_loss_pos (it : List ℚ → ℚ × List ℚ) (x0 : List ℚ) :
    ((filterResult it x0).isSome ↔
      ∃ l, lastLoss (runAscent it STEP ITERATIONS x0) = some l ∧ 0 < l) ∧
    ((∃ l ∈ (runAscent it STEP ITERATIONS x0).losses, l ≤ 0) →
      filterResult it x0 = none) := by
  constructor
  · rcases hc : lastLoss (runAscent it STEP ITERATIONS x0) with _ | l
    · simp [filterResult, hc]
    · by_cases hl : 0 < l
      · simp [filterResult, hc, hl]
      · simp only [filterResult, hc, if_neg hl]
        constructor
        · intro h; simp at h
        · rintro ⟨l2, hl2, hpos⟩
          exact absurd (by rw [Option.some_inj.mp hl2]; exact hpos) hl
  · intro h
    obtain ⟨l, hlast, hle⟩ := runAscent_nonpos_getLast it STEP ITERATIONS x0 h
    have hnot : ¬ 0 < l := not_lt.mpr hle
    simp [filterResult, lastLoss] at hlast ⊢
    rw [hlast]
    simp [hnot]

/-- C1 witness: a filter whose loss is 0 at the first evaluation is
discarded. -/
theorem filterResult_iff_last_loss_pos_witness :
    filterResult (fun _ => ((0 : ℚ), ([] : List ℚ))) [] = none :=
  (filterResult_iff_last_loss_pos (fun _ => ((0 : ℚ), ([] : List ℚ))) []).2
    ⟨0, by decide, by decide⟩

/-- C5: the ascent loop performs at most 20 iterations; it performs exactly
20 whenever every evaluated loss is strictly positive, and it performs fewer
than 20 only when some evaluated loss is ≤ 0. -/
theorem ascent_iteration_count (it : List ℚ → ℚ × List ℚ) (x0 : List ℚ) :
    ((runAscent it STEP ITERATIONS x0).losses.length ≤ 20) ∧
    ((∀ l ∈ (runAscent it STEP ITERATIONS x0).losses, 0 < l) →
      (runAscent it STEP ITERATIONS x0).losses.length = 20) ∧
    ((runAscent it STEP ITERATIONS x0).losses.length < 20 →
      ∃ l ∈ (runAscent it STEP ITERATIONS x0).losses, l ≤ 0) := by
  refine ⟨runAscent_length_le it STEP ITERATIONS x0,
    runAscent_length_of_pos it STEP ITERATIONS x0, ?_⟩
  intro hlt
  by_contra hno
  push_neg at hno
  rw [runAscent_length_of_pos it STEP ITERATIONS x0 hno] at hlt
  simp [ITERATIONS] at hlt

/-- C5 witness: with a constant loss of 1, the loop executes exactly 20
iterations. -/
theorem ascent_iteration_count_witness :
    (runAscent oneLossNoGrad STEP ITERATIONS []).losses.length = 20 :=
  (ascent_iteration_count oneLossNoGrad []).2.1 (by decide)

/-- C3 counterexample: with a loss that is 0 already at the first
evaluation (made at the initial input `[0]`) and the constant gradient
`[1]`, the loop terminates on that first iteration, but the final input is
`[1]`, not the input `[0]` at which the non-positive loss was evaluated:
the gradient update is applied before the check, not after it. -/
theorem update_precedes_check_counterexample :
    runAscent zeroLossUnitGrad STEP ITERATIONS [0] = ⟨[0], [1]⟩ ∧
    ([1] : List ℚ) ≠ [0] := by
  refine ⟨?_, by decide⟩
  show runAscent zeroLossUnitGrad STEP (19 + 1) [0] = _
  norm_num [runAscent, zeroLossUnitGrad, stepUpdate, STEP]

/-- C3 (amended): on an iteration whose evaluated loss is ≤ 0 the loop does
terminate early, but only after applying that iteration's gradient update:
from any state `x` with `(it x).1 ≤ 0` and any remaining iteration budget,
exactly one more loss is recorded and the final input is
`stepUpdate step x (it x).2`. -/
theorem early_stop_after_update (it : List ℚ → ℚ × List ℚ) (step : ℚ)
    (n : Nat) (x : List ℚ) (h : (it x).1 ≤ 0) :
    runAscent it step (n + 1) x = ⟨[(it x).1], stepUpdate step x (it x).2⟩ := by
  simp [runAscent, h]

/-- C3 witness: the amended statement evaluated at the zero-loss,
unit-gradient oracle. -/
theorem early_stop_after_update_witness :
    runAscent zeroLossUnitGrad STEP (19 + 1) [0] =
      ⟨[(zeroLossUnitGrad [0]).1], stepUpdate STEP [0] (zeroLossUnitGrad [0]).2⟩ :=
  early_stop_after_update zeroLossUnitGrad STEP 19 [0] (by decide)

/-- C2 counterexample: in a two-filter layer whose filter 0 is dead (loss
constantly 0) and whose filter 1 has constant loss 1, the only kept filter
is filter index 1, yet the single file written carries index 0 — the
enumeration index within the kept list, not the filter index within the
layer. -/
theorem output_index_counterexample :
    filterResult (deadThenLive 0) (emptyInit 0) = none ∧
    filterResult (deadThenLive 1) (emptyInit 1) = some ([], 1) ∧
    outputRecords 0 (fun _ => 0) [] (processConv2DLayer 2 deadThenLive emptyInit) =
      [⟨0, 0, [], 0, 1⟩] := by decide

/-- C2 (amended): the index embedded in the file name of the j-th written
image is j, the rank of that image in the kept-filters sequence; it equals
the filter's index within the layer exactly when no earlier filter of the
layer was skipped — in particular, when every filter is kept, the j-th file
carries index j and the loss of filter j. -/
theorem output_index_is_kept_rank (dir : Nat) (ts : Nat → Nat) (name : List Nat)
    (cnt : Nat) (it : Nat → List ℚ → ℚ × List ℚ) (init : Nat → List ℚ) :
    ((outputRecords dir ts name (processConv2DLayer cnt it init)).map
        FileRecord.index = List.range (processConv2DLayer cnt it init).length) ∧
    (∀ g : Nat → List ℚ × ℚ,
      (∀ i ∈ List.range cnt, filterResult (it i) (init i) = some (g i)) →
      ((outputRecords dir ts name (processConv2DLayer cnt it init)).map
          FileRecord.index = List.range cnt) ∧
      ((outputRecords dir ts name (processConv2DLayer cnt it init)).map
          FileRecord.loss = (List.range cnt).map fun i => (g i).2)) := by
  have ha : ∀ kept : List (List ℚ × ℚ),
      (outputRecords dir ts name kept).map FileRecord.index =
        List.range kept.length := by
    intro kept
    have hc : (FileRecord.index ∘ fun p : Nat × (List ℚ × ℚ) =>
        (⟨dir, ts p.1, name, p.1, p.2.2⟩ : FileRecord)) = Prod.fst := rfl
    rw [outputRecords, List.map_map, hc, List.enum_map_fst]
  refine ⟨ha _, ?_⟩
  intro g hg
  have hk : processConv2DLayer cnt it init = (List.range cnt).map g :=
    List.filterMap_eq_map_iff_forall_eq_some.mpr hg
  constructor
  · rw [ha, hk, List.length_map, List.length_range]
  · rw [hk]
    rw [outputRecords, List.enum_map, List.map_map]
    conv_rhs => rw [← List.enum_map_snd (List.range cnt), List.map_map]
    simp only [List.map_map]
    rfl

/-- C2 witness: with two filters both of constant loss 1, both are kept and
the two files carry indices 0 and 1 with the filters' losses. -/
theorem output_index_is_kept_rank_witness :
    ((outputRecords 0 (fun _ => 0) []
        (processConv2DLayer 2 (fun _ => oneLossNoGrad) emptyInit)).map
      FileRecord.index = List.range 2) ∧
    ((outputRecords 0 (fun _ => 0) []
        (processConv2DLayer 2 (fun _ => oneLossNoGrad) emptyInit)).map
      FileRecord.loss = (List.range 2).map fun _ => (1 : ℚ)) :=
  (output_index_is_kept_rank 0 (fun _ => 0) [] 2 (fun _ => oneLossNoGrad)
    emptyInit).2 (fun _ => ([], 1)) (by decide)

/-- C8 counterexample: a model whose first layer is an ASCII-named
convolution layer and whose second layer has a non-ASCII name does not
abort before ascent work begins: 20 ascent iterations run on the first
layer's filter before the assertion on the second layer's name fires. -/
theorem ascii_abort_counterexample :
    is_ascii badNameLayer.name = false ∧
    processLayersRun [convLayerC, badNameLayer] = (20, true) := by decide

/-- C8 (amended): the run aborts when the traversal reaches the first layer
whose name contains a non-ASCII character — before any ascent work on that
layer or on later layers, but after the ascent work of all layers preceding
it in the flat traversal has already completed. -/
theorem ascii_abort_at_offending_layer (pre : List Layer) (bad : Layer)
    (post : List Layer) (hpre : ∀ l ∈ pre, is_ascii l.name = true)
    (hbad : is_ascii bad.name = false) :
    processLayersRun (pre ++ bad :: post) = ((pre.map layerWork).sum, true) := by
  induction pre with
  | nil => simp [processLayersRun, hbad]
  | cons a t ih =>
    have ha : is_ascii a.name = true := hpre a (List.mem_cons_self a t)
    have ht : ∀ l ∈ t, is_ascii l.name = true :=
      fun l hl => hpre l (List.mem_cons_of_mem a hl)
    have hstep : processLayersRun (a :: (t ++ bad :: post)) =
        (layerWork a + (processLayersRun (t ++ bad :: post)).1,
          (processLayersRun (t ++ bad :: post)).2) := by
      simp [processLayersRun, ha]
    rw [List.cons_append, hstep, ih ht, List.map_cons, List.sum_cons]

/-- C8 witness: the amended statement at the two-layer counterexample
model. -/
theorem ascii_abort_at_offending_layer_witness :
    processLayersRun ([convLayerC] ++ badNameLayer :: []) =
      (([convLayerC].map layerWork).sum, true) :=
  ascii_abort_at_offending_layer [convLayerC] badNameLayer []
    (by decide) (by decide)

theorem meanSq_nonneg (t : List ℝ) : 0 ≤ meanSq t := by
  apply div_nonneg
  · exact List.sum_nonneg fun v hv => by
      obtain ⟨w, _, rfl⟩ := List.mem_map.mp hv
      positivity
  · positivity

theorem meanSq_scale (k : ℝ) (t : List ℝ) :
    meanSq (scale k t) = k ^ 2 * meanSq t := by
  simp only [meanSq, meanR, scale, List.map_map, List.length_map]
  rw [show ((fun v => v ^ 2) ∘ fun v => k * v) = fun v => k ^ 2 * v ^ 2 by
    funext v; simp [mul_pow]]
  rw [List.sum_map_mul_left, mul_div_assoc]

/-- C6: `normalize` returns exactly `t / (sqrt(mean(t²)) + ε)` elementwise,
with `ε = K.epsilon() = 1e-7` a fixed positive constant, and the divisor is
strictly positive for every tensor — including the all-zero tensor — so no
division by zero occurs. -/
theorem normalize_formula_and_defined (t : List ℝ) :
    normalize t = t.map (fun v => v / (Real.sqrt (meanSq t) + epsK)) ∧
    0 < epsK ∧ 0 < Real.sqrt (meanSq t) + epsK := by
  refine ⟨rfl, by norm_num [epsK], ?_⟩
  have h1 : (0 : ℝ) ≤ Real.sqrt (meanSq t) := Real.sqrt_nonneg _
  have h2 : (0 : ℝ) < epsK := by norm_num [epsK]
  linarith

/-- C4 counterexample: in exact arithmetic (ε = 0), scale covariance fails
for the nonzero scalar k = -1 already at t = [1] (whose mean square is
1 ≠ 0): normalizing the scaled tensor yields [-1], not [1]. -/
theorem normalize_scale_counterexample :
    normalizeEps 0 (scale (-1) [1]) ≠ normalizeEps 0 [1] ∧
    meanSq [(1 : ℝ)] ≠ 0 := by
  have hm2 : meanSq ([1] : List ℝ) = 1 := by norm_num [meanSq, meanR]
  have hsc : scale (-1) ([1] : List ℝ) = [-1] := by norm_num [scale]
  have hm1 : meanSq ([-1] : List ℝ) = 1 := by norm_num [meanSq, meanR]
  refine ⟨?_, by rw [hm2]; norm_num⟩
  rw [hsc]
  simp only [normalizeEps, hm1, hm2, Real.sqrt_one, List.map_cons, List.map_nil]
  intro h
  injection h with h1 _
  norm_num at h1

/-- C4 (amended): in exact arithmetic (ε = 0), normalization is
scale-covariant for every strictly positive scalar k and every tensor t
with nonzero mean square, `normalizeEps 0 (k·t) = normalizeEps 0 t`; for a
negative scalar k the result is instead the negation of `normalizeEps 0 t`,
so the claim's "any nonzero scalar" must be restricted to positive
scalars. -/
theorem normalize_scale_covariant (k : ℝ) (t : List ℝ) (hm : meanSq t ≠ 0) :
    (0 < k → normalizeEps 0 (scale k t) = normalizeEps 0 t) ∧
    (k < 0 → normalizeEps 0 (scale k t) = scale (-1) (normalizeEps 0 t)) := by
  have hpos : 0 < meanSq t := lt_of_le_of_ne (meanSq_nonneg t) (Ne.symm hm)
  have hs : 0 < Real.sqrt (meanSq t) := Real.sqrt_pos.mpr hpos
  have hsq : Real.sqrt (meanSq (scale k t)) = |k| * Real.sqrt (meanSq t) := by
    rw [meanSq_scale, Real.sqrt_mul (sq_nonneg k), Real.sqrt_sq_eq_abs]
  constructor
  · intro hk
    simp only [normalizeEps, add_zero]
    rw [hsq, abs_of_pos hk]
    simp only [scale, List.map_map]
    rw [show ((fun v => v / (k * Real.sqrt (meanSq t))) ∘ fun v => k * v) =
        fun v => v / Real.sqrt (meanSq t) by
      funext v
      exact mul_div_mul_left v (Real.sqrt (meanSq t)) (ne_of_gt hk)]
  · intro hk
    simp only [normalizeEps, add_zero]
    rw [hsq, abs_of_neg hk]
    simp only [scale, List.map_map]
    rw [show ((fun v => v / (-k * Real.sqrt (meanSq t))) ∘ fun v => k * v) =
        ((fun v => -1 * v) ∘ fun v => v / Real.sqrt (meanSq t)) by
      funext v
      have hk0 : k ≠ 0 := ne_of_lt hk
      have hs0 : Real.sqrt (meanSq t) ≠ 0 := ne_of_gt hs
      simp only [Function.comp_apply]
      field_simp
      ring]

/-- C4 witness: scale covariance at k = 2 and t = [1]. -/
theorem normalize_scale_covariant_witness :
    normalizeEps 0 (scale 2 [1]) = normalizeEps 0 [1] :=
  (normalize_scale_covariant 2 [1] (by norm_num [meanSq, meanR])).1
    (by norm_num)

theorem map_eq_self_fix {α : Type} (f : α → α) :
    ∀ l : List α, l.map f = l → ∀ x ∈ l, f x = x := by
  intro l
  induction l with
  | nil => intro _ x hx; simp at hx
  | cons a t ih =>
    intro h x hx
    rw [List.map_cons] at h
    injection h with h1 h2
    rcases List.mem_cons.mp hx with rfl | hx2
    · exact h1
    · exact ih h2 x hx2

theorem flatten_replicate_replicate {α : Type} (c : α) (m : Nat) :
    ∀ n : Nat,
      (List.replicate n (List.replicate m c)).flatten = List.replicate (n * m) c := by
  intro n
  induction n with
  | zero => simp
  | succ k ih =>
    rw [List.replicate_succ, List.flatten_cons, ih, ← List.replicate_add]
    congr 1
    ring

theorem t3map_constT3 (f : ℝ → ℝ) (H W C : Nat) (c : ℝ) :
    t3map f (constT3 H W C c) = constT3 H W C (f c) := by
  simp [t3map, constT3, List.map_replicate]

theorem t3elems_constT3 (H W C : Nat) (c : ℝ) :
    t3elems (constT3 H W C c) = List.replicate (H * W * C) c := by
  rw [constT3, t3elems, flatten_replicate_replicate, flatten_replicate_replicate]

theorem meanR_replicate (n : Nat) (c : ℝ) (h : n ≠ 0) :
    meanR (List.replicate n c) = c := by
  rw [meanR, List.sum_replicate, List.length_replicate, nsmul_eq_mul]
  exact mul_div_cancel_left₀ c (by exact_mod_cast h)

theorem t3mean_constT3 (H W C : Nat) (c : ℝ) (h : H * W * C ≠ 0) :
    t3mean (constT3 H W C c) = c := by
  rw [t3mean, t3elems_constT3, meanR_replicate _ _ h]

theorem t3std_constT3_zero (H W C : Nat) (h : H * W * C ≠ 0) :
    t3std (constT3 H W C 0) = 0 := by
  rw [t3std, t3mean_constT3 H W C 0 h, t3elems_constT3, List.map_replicate,
    show ((0:ℝ) - 0) ^ 2 = 0 by ring, meanR_replicate _ _ h, Real.sqrt_zero]

theorem deprocess_image_eq_map (x : Tensor3) :
    deprocess_image x = x.map fun p => p.map fun q => q.map (depFun x) := by
  simp only [deprocess_image, t3map, List.map_map]
  congr 1
  funext p
  simp only [Function.comp_apply, List.map_map]
  congr 1
  funext q
  simp only [Function.comp_apply, List.map_map]
  congr 1

theorem deprocess_image_constT3 (H W C : Nat) (c : ℝ) (h : H * W * C ≠ 0) :
    deprocess_image (constT3 H W C c) = List.replicate H (List.replicate W
      (List.replicate C 127)) := by
  have hmean : t3mean (constT3 H W C c) = c := t3mean_constT3 H W C c h
  have hsub : t3map (fun v => v - t3mean (constT3 H W C c)) (constT3 H W C c) =
      constT3 H W C 0 := by
    rw [t3map_constT3, hmean, sub_self]
  have hstd : t3std (constT3 H W C 0) = 0 := t3std_constT3_zero H W C h
  have hscalar : depFun (constT3 H W C c) c = 127 := by
    rw [depFun, hsub, hstd, hmean]
    have he : (c - c) / ((0:ℝ) + epsK) * (1/10) + 1/2 = 1/2 := by
      rw [sub_self, zero_div, zero_mul, zero_add]
    rw [he, show clip 0 1 ((1:ℝ)/2) = 1/2 by norm_num [clip],
      show ((1:ℝ)/2) * 255 = 255/2 by ring,
      show clip 0 255 ((255:ℝ)/2) = 255/2 by norm_num [clip],
      Nat.floor_eq_iff (by norm_num)]
    norm_num
  rw [deprocess_image_eq_map]
  nth_rewrite 2 [constT3]
  simp only [List.map_replicate]
  rw [hscalar]

theorem t3std_nonneg (x : Tensor3) : 0 ≤ t3std x := by
  rw [t3std]; exact Real.sqrt_nonneg _

theorem epsK_pos : 0 < epsK := by norm_num [epsK]

theorem depFun_le_255 (x : Tensor3) (v : ℝ) : depFun x v ≤ 255 := by
  rw [depFun]
  calc Nat.floor (clip 0 255 (clip 0 1 ((v - t3mean x) /
        (t3std (t3map (fun w => w - t3mean x) x) + epsK) * (1 / 10) + 1 / 2)
          * 255)) ≤ Nat.floor ((255 : ℝ)) :=
        Nat.floor_mono (min_le_right _ _)
    _ = 255 := by norm_num

/-- C7 counterexample: a 1×1×1 input tensor (one channel) is mapped to the
1×1×1 output `[[[127]]]`: the output keeps the input's channel count, so it
does not have exactly 3 channels. -/
theorem deprocess_channels_counterexample :
    deprocess_image [[[(0 : ℝ)]]] = [[[127]]] ∧
    ¬ (∀ p ∈ deprocess_image [[[(0 : ℝ)]]], ∀ q ∈ p, q.length = 3) := by
  have h : deprocess_image [[[(0 : ℝ)]]] = [[[127]]] :=
    deprocess_image_constT3 1 1 1 0 (by norm_num)
  refine ⟨h, ?_⟩
  rw [h]
  intro hall
  have := hall [[127]] (by simp) [127] (by simp)
  norm_num at this

/-- C7 (amended): `deprocess_image` preserves the height, the per-plane
width and the per-row channel count of its channels-last input — hence the
output has exactly 3 channels exactly when the input does (the claim's
unconditional "exactly 3 channels" holds only for 3-channel inputs) — and
every output element is an unsigned byte value at most 255. -/
theorem deprocess_shape_and_range (x : Tensor3) :
    ((deprocess_image x).length = x.length) ∧
    ((deprocess_image x).map List.length = x.map List.length) ∧
    ((deprocess_image x).map (fun p => p.map List.length) =
      x.map (fun p => p.map List.length)) ∧
    ((∀ p ∈ x, ∀ q ∈ p, q.length = 3) →
      ∀ p ∈ deprocess_image x, ∀ q ∈ p, q.length = 3) ∧
    (∀ p ∈ deprocess_image x, ∀ q ∈ p, ∀ v ∈ q, v ≤ 255) := by
  rw [deprocess_image_eq_map]
  refine ⟨by rw [List.length_map], ?_, ?_, ?_, ?_⟩
  · rw [List.map_map]
    apply List.map_congr_left
    intro p _
    simp
  · rw [List.map_map]
    apply List.map_congr_left
    intro p _
    simp [List.map_map]
  · intro h3 p hp q hq
    obtain ⟨p0, hp0, rfl⟩ := List.mem_map.mp hp
    obtain ⟨q0, hq0, rfl⟩ := List.mem_map.mp hq
    rw [List.length_map]
    exact h3 p0 hp0 q0 hq0
  · intro p hp q hq v hv
    obtain ⟨p0, hp0, rfl⟩ := List.mem_map.mp hp
    obtain ⟨q0, hq0, rfl⟩ := List.mem_map.mp hq
    obtain ⟨v0, hv0, rfl⟩ := List.mem_map.mp hv
    exact depFun_le_255 x v0

/-- C7 witness: the 3-channel preservation at the 1×1×3 zero tensor. -/
theorem deprocess_shape_and_range_witness :
    ∀ p ∈ deprocess_image [[[(0 : ℝ), 0, 0]]], ∀ q ∈ p, q.length = 3 :=
  (deprocess_shape_and_range [[[(0 : ℝ), 0, 0]]]).2.2.2.1 (by simp)

/-- C9: for every constant input tensor of nonempty shape H×W×C, the
divisor `std + ε` of `deprocess_image` is strictly positive — the ε term
guards the division, so no division error occurs — and every element of
the output is the mid-gray byte value 127 (the truncation of
0.5 × 255 = 127.5). -/
theorem deprocess_constant_input (H W C : Nat) (c : ℝ) (h : H * W * C ≠ 0) :
    (0 < t3std (t3map (fun v => v - t3mean (constT3 H W C c))
        (constT3 H W C c)) + epsK) ∧
    deprocess_image (constT3 H W C c) =
      List.replicate H (List.replicate W (List.replicate C 127)) := by
  constructor
  · have h1 := t3std_nonneg (t3map (fun v => v - t3mean (constT3 H W C c))
      (constT3 H W C c))
    have h2 := epsK_pos
    linarith
  · exact deprocess_image_constT3 H W C c h

/-- C9 witness: a 2×2×2 tensor constantly 5 maps to the constant 127
image. -/
theorem deprocess_constant_input_witness :
    deprocess_image (constT3 2 2 2 5) =
      List.replicate 2 (List.replicate 2 (List.replicate 2 127)) :=
  (deprocess_constant_input 2 2 2 5 (by norm_num)).2

theorem t3map_fix (f : ℝ → ℝ) (x : Tensor3) (h : t3map f x = x) :
    ∀ v ∈ t3elems x, f v = v := by
  intro v hv
  rw [t3elems] at hv
  obtain ⟨q, hq, hvq⟩ := List.mem_flatten.mp hv
  obtain ⟨p, hp, hqp⟩ := List.mem_flatten.mp hq
  have h1 := map_eq_self_fix _ x h p hp
  have h2 := map_eq_self_fix _ p h1 q hqp
  exact map_eq_self_fix f q h2 v hvq

theorem deprocessMutated_eq_map (x : Tensor3) :
    deprocessMutated x = t3map (mutFun x) x := by
  simp only [deprocessMutated, t3map, List.map_map]
  congr 1
  funext p
  simp only [Function.comp_apply, List.map_map]
  congr 1
  funext q
  simp only [Function.comp_apply, List.map_map]
  congr 1

theorem affine_fix_clear (m d : ℝ) (hd : d ≠ 0) (v : ℝ)
    (hv : (v - m) / d * (1 / 10) + 1 / 2 = v) :
    (v - m) * (1 / 10) + (1 / 2) * d = v * d := by
  have h2 := congrArg (fun z : ℝ => z * d) hv
  simp only at h2
  rw [add_mul, mul_comm ((v - m) / d) (1 / 10), mul_assoc,
    div_mul_cancel₀ _ hd] at h2
  linarith

theorem affine_two_fixed (m d v1 v2 : ℝ) (hd : d ≠ 0) (hne : v1 ≠ v2)
    (h1 : (v1 - m) / d * (1 / 10) + 1 / 2 = v1)
    (h2 : (v2 - m) / d * (1 / 10) + 1 / 2 = v2) :
    d = 1 / 10 ∧ m = 1 / 2 := by
  have e1 := affine_fix_clear m d hd v1 h1
  have e2 := affine_fix_clear m d hd v2 h2
  have hsub : (v1 - v2) * (1 / 10) = (v1 - v2) * d := by
    linear_combination e1 - e2
  have hd10 : (1 : ℝ) / 10 = d := mul_left_cancel₀ (sub_ne_zero.mpr hne) hsub
  refine ⟨hd10.symm, ?_⟩
  rw [← hd10] at e1
  linarith

/-- C10 counterexample: the 1×1×2 array with the two distinct values
0.4000001 and 0.5999999 (mean exactly 0.5, standard deviation exactly
0.1 - ε) is a fixed point of the in-place transformation: after
`deprocess_image` returns, the caller's array still holds exactly its
original values. -/
theorem deprocess_mutation_counterexample :
    ((4000001 / 10 ^ 7 : ℝ) ∈ t3elems fixedPointT3 ∧
     (5999999 / 10 ^ 7 : ℝ) ∈ t3elems fixedPointT3 ∧
     (4000001 / 10 ^ 7 : ℝ) ≠ 5999999 / 10 ^ 7) ∧
    deprocessMutated fixedPointT3 = fixedPointT3 := by
  have hel : t3elems fixedPointT3 =
      [4000001 / 10 ^ 7, 5999999 / 10 ^ 7] := by
    simp [t3elems, fixedPointT3]
  refine ⟨⟨by rw [hel]; simp, by rw [hel]; simp, by norm_num⟩, ?_⟩
  have hm : t3mean fixedPointT3 = 1 / 2 := by
    rw [t3mean, hel, meanR]
    norm_num
  have hsub : t3map (fun w => w - t3mean fixedPointT3) fixedPointT3 =
      [[[-(999999 / 10 ^ 7), 999999 / 10 ^ 7]]] := by
    rw [hm]
    show t3map _ [[[4000001 / 10 ^ 7, 5999999 / 10 ^ 7]]] = _
    simp only [t3map, List.map_cons, List.map_nil]
    norm_num
  have hel0 : t3elems [[[-(999999 / 10 ^ 7 : ℝ), 999999 / 10 ^ 7]]] =
      [-(999999 / 10 ^ 7), 999999 / 10 ^ 7] := by
    simp [t3elems]
  have hm0 : t3mean [[[-(999999 / 10 ^ 7 : ℝ), 999999 / 10 ^ 7]]] = 0 := by
    rw [t3mean, hel0, meanR]
    norm_num
  have hstd : t3std [[[-(999999 / 10 ^ 7 : ℝ), 999999 / 10 ^ 7]]] =
      999999 / 10 ^ 7 := by
    rw [t3std, hm0, hel0]
    rw [show ([-(999999 / 10 ^ 7 : ℝ), 999999 / 10 ^ 7].map
        fun v => (v - 0) ^ 2) =
        [(999999 / 10 ^ 7 : ℝ) ^ 2, (999999 / 10 ^ 7) ^ 2] by norm_num]
    rw [show meanR [(999999 / 10 ^ 7 : ℝ) ^ 2, (999999 / 10 ^ 7) ^ 2] =
        (999999 / 10 ^ 7 : ℝ) ^ 2 by rw [meanR]; norm_num]
    exact Real.sqrt_sq (by norm_num)
  have hfn : mutFun fixedPointT3 = fun v => v := by
    funext v
    rw [mutFun, hsub, hstd, hm]
    rw [show (999999 / 10 ^ 7 : ℝ) + epsK = 1 / 10 by norm_num [epsK]]
    rw [div_mul_cancel₀ _ (by norm_num : (1 / 10 : ℝ) ≠ 0)]
    ring
  rw [deprocessMutated_eq_map, hfn]
  simp [t3map]

/-- C10 (amended): after `deprocess_image(x)` returns, the caller's array
holds the centered, rescaled, shifted values (the in-place operators mutate
it through `x += 0.5`; the subsequent `np.clip` rebinds a fresh array).
For an array holding two distinct values, these mutated values differ from
the original ones unless the array's mean is exactly 0.5 and its centered
standard deviation is exactly 0.1 - ε — the unique fixed point of the
per-element affine map — so the claim's unconditional "no longer holds its
original values" must except exactly that case. -/
theorem deprocess_mutation (x : Tensor3) :
    (deprocessMutated x = t3map (mutFun x) x) ∧
    (∀ v1 ∈ t3elems x, ∀ v2 ∈ t3elems x, v1 ≠ v2 →
      ¬ (t3mean x = 1 / 2 ∧
         t3std (t3map (fun w => w - t3mean x) x) = 1 / 10 - epsK) →
      deprocessMutated x ≠ x) := by
  refine ⟨deprocessMutated_eq_map x, ?_⟩
  intro v1 h1 v2 h2 hne hnfix heq
  rw [deprocessMutated_eq_map x] at heq
  have hfix := t3map_fix _ _ heq
  have e1 := hfix v1 h1
  have e2 := hfix v2 h2
  rw [mutFun] at e1 e2
  have hd0 : 0 < t3std (t3map (fun w => w - t3mean x) x) + epsK := by
    have ha := t3std_nonneg (t3map (fun w => w - t3mean x) x)
    have hb := epsK_pos
    linarith
  obtain ⟨hd10, hm12⟩ := affine_two_fixed (t3mean x)
    (t3std (t3map (fun w => w - t3mean x) x) + epsK) v1 v2
    (ne_of_gt hd0) hne e1 e2
  exact hnfix ⟨hm12, by linarith⟩

/-- C10 witness: the 1×1×2 array with values 0 and 2 (mean 1, not 0.5) is
genuinely mutated. -/
theorem deprocess_mutation_witness :
    deprocessMutated [[[(0 : ℝ), 2]]] ≠ [[[(0 : ℝ), 2]]] :=
  (deprocess_mutation [[[(0 : ℝ), 2]]]).2 0 (by simp [t3elems]) 2
    (by simp [t3elems]) (by norm_num)
    (by
      rintro ⟨hm, _⟩
      norm_num [t3mean, t3elems, meanR] at hm)

end VisualizeLayers
